import Mathlib

/-!
Verification of the markdown-to-JSON article converter
(src/news_articles/convert_md_to_html.py).

The script performs one linear pass over a static table of article files:
read the markdown source, derive a headline from the first line, convert
the body to HTML via the third-party markdown library, merge with static
image metadata, write one JSON file per article, and finally write an
aggregate all_articles.json.

The embedding below models the Python string primitives the script uses
(str.split, str.lstrip, str.strip, str.replace, strftime) on lists of
characters, the two static tables verbatim, the per-article processing
step, and the run as a pure function from a file system
(filename to optional contents), a run date, and the markdown conversion
function to the ordered list of file writes it performs.
-/

set_option autoImplicit false

namespace ConvertMdToHtml

/-- Whitespace characters recognised by Python str.strip() with no
argument, restricted to ASCII (space, tab, newline, carriage return,
vertical tab, form feed). -/
def isPySpace (c : Char) : Bool :=
  c == ' ' || c == '\t' || c == '\n' || c == '\r' || c == '\x0b' || c == '\x0c'

/-- Python content.split with separator newline, index 0: the characters
of the string before the first newline. -/
def firstLine (cs : List Char) : List Char :=
  cs.takeWhile (fun c => c != '\n')

/-- Python str.lstrip(chars): remove leading characters that belong to the
given character set. -/
def pyLstrip (strip : List Char) (cs : List Char) : List Char :=
  cs.dropWhile (fun c => decide (c ∈ strip))

/-- Remove trailing Python whitespace. -/
def pyRstripSpace (cs : List Char) : List Char :=
  (cs.reverse.dropWhile isPySpace).reverse

/-- Python str.strip() with no argument: remove leading and trailing
whitespace. -/
def pyStrip (cs : List Char) : List Char :=
  pyRstripSpace (cs.dropWhile isPySpace)

/-- Fuel-indexed worker for Python str.replace: scan left to right and
replace each non-overlapping occurrence of old with new. The fuel is an
upper bound on the number of scanning steps; each step consumes at least
one character, so the length of the input is enough fuel. -/
def pyReplaceFuel (old new : List Char) : Nat → List Char → List Char
  | 0, cs => cs
  | _ + 1, [] => []
  | fuel + 1, c :: cs =>
    if old ≠ [] ∧ old.isPrefixOf (c :: cs) then
      new ++ pyReplaceFuel old new fuel (cs.drop (old.length - 1))
    else
      c :: pyReplaceFuel old new fuel cs

/-- Python s.replace(old, new) for a non-empty pattern, on strings. -/
def pyReplace (old new s : String) : String :=
  String.mk (pyReplaceFuel old.toList new.toList s.toList.length s.toList)

/-- Line 160 of the script: the headline is the first line of the file
content, with leading characters from the two-character set hash-and-space
removed (str.lstrip applied to the string of a hash and a space), then
surrounding whitespace stripped. -/
def headline (content : String) : String :=
  String.mk (pyStrip (pyLstrip ['#', ' '] (firstLine content.toList)))

/-- Static per-article configuration: category and image filename
(the inner dictionaries of article_files, lines 18-79). -/
structure SourceMeta where
  category : String
  image : String
deriving DecidableEq, Repr, Inhabited

/-- Static image metadata: alt text and credit
(the inner dictionaries of image_metadata, lines 82-143). -/
structure ImageMeta where
  alt : String
  credit : String
deriving DecidableEq, Repr, Inhabited

/-- The static article table (lines 18-79), in the enumeration order of
the Python dict literal. -/
def article_files : List (String × SourceMeta) :=
  [ ("dubai-four-day-workweek.md", ⟨"News", "dubai-four-day-workweek.jpg"⟩),
    ("four-day-week-explained.md", ⟨"News", "four-day-week-explained.png"⟩),
    ("june-dubai-changes.md", ⟨"News", "june-dubai-changes.jpg"⟩),
    ("islamic-new-year-weekend.md", ⟨"News", "islamic-new-year-weekend.jpg"⟩),
    ("summer-solstice-guide.md", ⟨"News", "summer-solstice-guide.jpg"⟩),
    ("june-fuel-prices.md", ⟨"News", "june-fuel-prices.jpg"⟩),
    ("islamic-new-year-holiday.md", ⟨"News", "islamic-new-year-holiday.png"⟩),
    ("summer-start-date.md", ⟨"News", "summer-start-date.png"⟩),
    ("dubai-concerts-2025.md", ⟨"Things to Do", "dubai-concerts-2025.jpg"⟩),
    ("uae-experiences-2025.md", ⟨"Things to Do", "uae-experiences-2025.jpg"⟩),
    ("dubai-activities-guide.md", ⟨"Things to Do", "dubai-activities-guide.jpg"⟩),
    ("nye-soho-garden.md", ⟨"Nightlife", "nye-soho-garden.jpg"⟩),
    ("summer-dining-deals.md", ⟨"Food & Drink", "summer-dining-deals.jpg"⟩),
    ("restaurant-week-deals.md", ⟨"Food & Drink", "restaurant-week-deals.jpg"⟩),
    ("new-restaurants-guide.md", ⟨"Food & Drink", "new-restaurants-guide.jpg"⟩) ]

/-- The static image metadata table (lines 82-143), in the enumeration
order of the Python dict literal. -/
def image_metadata : List (String × ImageMeta) :=
  [ ("dubai-four-day-workweek.jpg",
     ⟨"Dubai public sector employees in a meeting discussing the four-day work week initiative",
      "Gulf Business (gulfbusiness.com)"⟩),
    ("four-day-week-explained.png",
     ⟨"Graphic showing work-life balance concept with Dubai skyline",
      "JobXDubai (blog.jobxdubai.com)"⟩),
    ("june-dubai-changes.jpg",
     ⟨"Fireworks display over Dubai during Islamic New Year celebrations",
      "Travel Saga Tourism (travelsaga.com)"⟩),
    ("islamic-new-year-weekend.jpg",
     ⟨"Sheikh Zayed Grand Mosque illuminated during Islamic New Year",
      "Yalla Dubai Life (yalladubai.ae)"⟩),
    ("summer-solstice-guide.jpg",
     ⟨"Dubai skyline at sunset during summer season",
      "Gulf News (gulfnews.com)"⟩),
    ("june-fuel-prices.jpg",
     ⟨"ADNOC fuel station with car refueling",
      "Oil & Gas Middle East (www.oilandgasmiddleeast.com)"⟩),
    ("islamic-new-year-holiday.png",
     ⟨"UAE Public Holidays calendar for 2025 showing Islamic New Year date",
      "The ZenHR Blog (blog.zenhr.com)"⟩),
    ("summer-start-date.png",
     ⟨"Dubai weather temperature chart showing summer season temperatures",
      "On the Beach (www.onthebeach.ie)"⟩),
    ("dubai-concerts-2025.jpg",
     ⟨"Crowd at Coca-Cola Arena Dubai during a concert",
      "The National (www.thenationalnews.com)"⟩),
    ("uae-experiences-2025.jpg",
     ⟨"Museum of the Future Dubai exterior view",
      "Tripadvisor (www.tripadvisor.com)"⟩),
    ("dubai-activities-guide.jpg",
     ⟨"Collage of indoor activities and attractions in Dubai",
      "Captain Dunes (captaindunes.com)"⟩),
    ("nye-soho-garden.jpg",
     ⟨"Soho Garden Dubai nightclub during a New Year's Eve celebration",
      "Time Out Dubai (www.timeoutdubai.com)"⟩),
    ("summer-dining-deals.jpg",
     ⟨"Prime68 restaurant interior at JW Marriott Marquis Hotel Dubai",
      "Marriott (www.marriott.com)"⟩),
    ("restaurant-week-deals.jpg",
     ⟨"Dubai Restaurant Week promotional image showing gourmet dishes",
      "Curly Tales (curlytales.com)"⟩),
    ("new-restaurants-guide.jpg",
     ⟨"Interior of a new luxury restaurant in Dubai with elegant bar area",
      "Platinumlist (platinumlist.net)"⟩) ]

/-- A calendar date, the input of strftime on line 146. -/
structure Date where
  year : Nat
  month : Nat
  day : Nat
deriving DecidableEq, Repr, Inhabited

/-- Left-pad a digit list with zeros to the given width. -/
def padZeros (w : Nat) (cs : List Char) : List Char :=
  List.replicate (w - cs.length) '0' ++ cs

/-- Decimal digits of a natural number. -/
def natDigits (n : Nat) : List Char :=
  Nat.toDigits 10 n

/-- Line 146: datetime.datetime.now().strftime of the pattern
year-month-day, with the year zero-padded to four digits and month and
day zero-padded to two digits. -/
def strftimeYmd (d : Date) : String :=
  String.mk (padZeros 4 (natDigits d.year) ++ ['-'] ++ padZeros 2 (natDigits d.month)
    ++ ['-'] ++ padZeros 2 (natDigits d.day))

/-- The output record assembled on lines 166-175. Field names follow the
keys of the Python dict literal. -/
structure ArticleRecord where
  headline : String
  content : String
  image_path : String
  image_alt : String
  image_credit : String
  category : String
  publish_date : String
  author : String
deriving DecidableEq, Repr, Inhabited

/-- The key-value pairs of the JSON object json.dump writes for one
record (lines 166-175 and 180): the dict keys in insertion order, each
paired with the string value of the corresponding field. -/
def recordFields (r : ArticleRecord) : List (String × String) :=
  [ ("headline", r.headline),
    ("content", r.content),
    ("image_path", r.image_path),
    ("image_alt", r.image_alt),
    ("image_credit", r.image_credit),
    ("category", r.category),
    ("publish_date", r.publish_date),
    ("author", r.author) ]

/-- The output directory (line 12). -/
def output_dir : String := "/home/ubuntu/timeoutdubai_rewrite_named/output"

/-- Line 178: the per-article output filename, the source filename with
every occurrence of the substring dot-m-d replaced by dot-j-s-o-n. -/
def outputFilename (name : String) : String :=
  pyReplace ".md" ".json" name

/-- The full path of a per-article output file (line 179). -/
def outputPath (name : String) : String :=
  output_dir ++ "/" ++ outputFilename name

/-- The basename of a filename with a three-character extension: all
characters but the last three. -/
def stem (name : String) : String :=
  String.mk (name.toList.take (name.toList.length - 3))

/-- The last three characters of a filename, its extension. -/
def extOf (name : String) : String :=
  String.mk (name.toList.drop (name.toList.length - 3))

/-- The full path of the aggregate output file (line 186). -/
def all_articles_path : String := output_dir ++ "/all_articles.json"

/-- The body of the loop over article_files (lines 150-175), as a pure
function: md is the markdown-to-HTML conversion of the third-party
markdown library, fs maps an article filename to its contents when the
file exists, d is the run date. Returns none exactly when reading the
file fails (fs yields none) or the image-metadata lookup fails. -/
def processArticle (md : String → String) (fs : String → Option String) (d : Date)
    (e : String × SourceMeta) : Option ArticleRecord :=
  match fs e.1 with
  | none => none
  | some content =>
    match image_metadata.lookup e.2.image with
    | none => none
    | some im =>
      some { headline := headline content,
             content := md content,
             image_path := "images/" ++ e.2.image,
             image_alt := im.alt,
             image_credit := im.credit,
             category := e.2.category,
             publish_date := strftimeYmd d,
             author := "TimeOut Dubai" }

/-- One write performed by the script: either a per-article JSON file
(lines 179-180) or the aggregate file (lines 186-187), identified by its
full path. -/
inductive FileWrite where
  | articleFile (path : String) (record : ArticleRecord)
  | aggregateFile (path : String) (records : List ArticleRecord)
deriving DecidableEq, Repr

/-- The loop of lines 149-183 over a list of entries: the per-article
file writes performed, in order, paired with the accumulated all_articles
list, which is none when some entry failed (the loop aborts at the first
failure, leaving the earlier writes in place). -/
def runAux (md : String → String) (fs : String → Option String) (d : Date) :
    List (String × SourceMeta) → List FileWrite × Option (List ArticleRecord)
  | [] => ([], some [])
  | e :: rest =>
    match processArticle md fs d e with
    | none => ([], none)
    | some r =>
      let res := runAux md fs d rest
      (FileWrite.articleFile (outputPath e.1) r :: res.1, res.2.map (fun l => r :: l))

/-- The whole script run (lines 149-187): the ordered list of file writes.
When every entry processes successfully the aggregate file, holding the
single-key object with the articles list, is written after all the
per-article files; when some entry fails the run stops there and the
aggregate file is never written. -/
def runConverter (md : String → String) (fs : String → Option String) (d : Date) :
    List FileWrite :=
  let res := runAux md fs d article_files
  match res.2 with
  | some recs => res.1 ++ [FileWrite.aggregateFile all_articles_path recs]
  | none => res.1

/-- Split a character list at every occurrence of the separator, keeping
empty segments, like Python str.split with an explicit separator. -/
def splitOnChar (sep : Char) (cs : List Char) : List (List Char) :=
  cs.foldr
    (fun c acc =>
      match acc with
      | [] => [[c]]
      | g :: gs => if c = sep then [] :: g :: gs else (c :: g) :: gs)
    [[]]

/-- Group the lines of a document into blocks separated by blank lines. -/
def splitBlocks (lines : List (List Char)) : List (List (List Char)) :=
  lines.foldr
    (fun line acc =>
      if line.isEmpty then [] :: acc
      else
        match acc with
        | [] => [[line]]
        | b :: bs => (line :: b) :: bs)
    []

/-- Modelled from the spec: one block of the markdown-to-HTML
transformation. A single line opening with one to six hash characters is
a heading and produces the corresponding heading element with the marker
and surrounding whitespace removed; any other block produces a paragraph
element around its lines. -/
def renderBlock (b : List (List Char)) : List Char :=
  match b with
  | [line] =>
    let n := (line.takeWhile (fun c => c == '#')).length
    if 1 ≤ n ∧ n ≤ 6 then
      "<h".toList ++ natDigits n ++ ">".toList ++ pyStrip (line.drop n)
        ++ "</h".toList ++ natDigits n ++ ">".toList
    else
      "<p>".toList ++ line ++ "</p>".toList
  | _ => "<p>".toList ++ List.intercalate ['\n'] b ++ "</p>".toList

/-- Modelled from the spec: the third-party markdown library invoked on
line 163 (markdown.markdown) is not part of this repository's sources.
Following the spec's words, it is modelled as the standard
markdown-to-HTML transformation: the text is split into blocks at blank
lines, a heading line of level n yields the heading element of level n,
and every other block yields a paragraph element; blocks are joined with
newlines. -/
def mdModel (s : String) : String :=
  String.mk (List.intercalate ['\n']
    (((splitBlocks (splitOnChar '\n' s.toList)).filter (fun b => !b.isEmpty)).map renderBlock))

/-! Concrete fixtures used to instantiate the theorems below on closed
inputs. -/

/-- A trivial markdown conversion, used where the conversion function is
irrelevant. -/
def mdW : String → String := fun _ => ""

/-- A file system in which only the first configured article exists. -/
def fsW : String → Option String :=
  fun n => if n = "dubai-four-day-workweek.md" then some "# T\nB" else none

/-- A file system in which every file exists with the same small
markdown document. -/
def fsAll : String → Option String := fun _ => some "# T\nB"

/-- A file system with no files at all. -/
def fsNone : String → Option String := fun _ => none

/-- A fixed run date. -/
def dW : Date := ⟨2025, 6, 1⟩

/-- A second, different run date. -/
def dW2 : Date := ⟨2025, 6, 2⟩

/-- The first entry of the static article table. -/
def entry0 : String × SourceMeta :=
  ("dubai-four-day-workweek.md", ⟨"News", "dubai-four-day-workweek.jpg"⟩)

/-- The record the script emits for the first configured article under
fsW, mdW and dW. -/
def recW : ArticleRecord :=
  { headline := "T",
    content := "",
    image_path := "images/dubai-four-day-workweek.jpg",
    image_alt := "Dubai public sector employees in a meeting discussing the four-day work week initiative",
    image_credit := "Gulf Business (gulfbusiness.com)",
    category := "News",
    publish_date := "2025-06-01",
    author := "TimeOut Dubai" }

/-- A record with its publish date blanked out. -/
def scrub (r : ArticleRecord) : ArticleRecord :=
  { r with publish_date := "" }

/-- A file write with every publish date blanked out. -/
def scrubWrite : FileWrite → FileWrite
  | .articleFile p r => .articleFile p (scrub r)
  | .aggregateFile p recs => .aggregateFile p (recs.map scrub)

/-- Following the words of claim C1: the first line of the source text
with its leading hash characters stripped and then the surrounding
whitespace stripped. -/
def headlineSpecC1 (content : String) : String :=
  String.mk (pyStrip ((firstLine content.toList).dropWhile (fun c => decide (c = '#'))))

/-- The headline transformation in the words of the amended claim C1:
the first line of the source text with its leading run of hash and space
characters stripped and then the surrounding whitespace stripped. -/
def headlineAmendedC1 (content : String) : String :=
  String.mk (pyStrip ((firstLine content.toList).dropWhile
    (fun c => decide (c = '#' ∨ c = ' '))))

/-- The field names of the output record in the words of claim C2. -/
def fieldsSpecC2 : List String :=
  ["headline", "content", "imagePath", "imageAlt", "imageCredit", "category",
   "publishDate", "author"]

/-- The field names actually used by the script, in the key order of the
dict literal on lines 166-175. -/
def fieldsAmendedC2 : List String :=
  ["headline", "content", "image_path", "image_alt", "image_credit", "category",
   "publish_date", "author"]

/-- A source text whose first line interleaves hash characters and
spaces, distinguishing the code's stripping from the claim's words. -/
def c1Content : String := "# # Dubai announces four-day workweek\n\nBody"

/-- A file system in which the first configured article holds
c1Content. -/
def fsC1 : String → Option String :=
  fun n => if n = "dubai-four-day-workweek.md" then some c1Content else none

/-- The record the script emits for the first configured article under
fsC1, mdW and dW. -/
def recC1 : ArticleRecord :=
  { recW with headline := "Dubai announces four-day workweek" }

/-- The source text of the spec's own example: the first line is a
single hash, a space, and the headline. -/
def c1ExContent : String := "# Dubai announces four-day workweek\n\nThe announcement."

/-- A file system in which the first configured article holds the spec's
example text. -/
def fsC1ex : String → Option String :=
  fun n => if n = "dubai-four-day-workweek.md" then some c1ExContent else none

/-- The record the script emits for the first configured article under
fsC1ex, mdW and dW. -/
def recC1ex : ArticleRecord :=
  { recW with headline := "Dubai announces four-day workweek" }

/-- A file system in which the first configured article is a single
level-two markdown heading. -/
def fsH : String → Option String :=
  fun n => if n = "dubai-four-day-workweek.md" then some "## Heading" else none

/-- The record the script emits for the first configured article under
fsH, mdModel and dW. -/
def recH : ArticleRecord :=
  { recW with headline := "Heading", content := "<h2>Heading</h2>" }

/-- The second entry of the static article table. -/
def entry1 : String × SourceMeta :=
  ("four-day-week-explained.md", ⟨"News", "four-day-week-explained.png"⟩)

/-- The full run on fsAll, where every entry succeeds. -/
def runW : List FileWrite × Option (List ArticleRecord) :=
  runAux mdW fsAll dW article_files

/-- The per-article writes of runW. -/
def filesW : List FileWrite := runW.1

/-- The articles list of runW. -/
def recsW : List ArticleRecord := runW.2.getD []

/-! Structural lemmas about the processing step and the run. -/

/-- Two pointwise-equal predicates drop the same prefix. -/
theorem dropWhile_ext {α : Type} (p q : α → Bool) (h : ∀ a, p a = q a) :
    ∀ l : List α, l.dropWhile p = l.dropWhile q := by
  intro l
  induction l with
  | nil => rfl
  | cons a l ih => simp only [List.dropWhile_cons, h a, ih]

/-- The headline of the code equals the headline in the words of the
amended claim C1: the predicate dropping hash and space characters is
the membership predicate of the two-character set. -/
theorem headline_eq_headlineAmendedC1 (content : String) :
    headline content = headlineAmendedC1 content := by
  unfold headline headlineAmendedC1 pyLstrip
  have h := dropWhile_ext (fun c : Char => decide (c ∈ ['#', ' ']))
    (fun c : Char => decide (c = '#' ∨ c = ' '))
    (fun c => decide_eq_decide.2 (by simp)) (firstLine content.toList)
  rw [h]

/-- A successful processing step determines the file contents, the image
metadata, and every field of the resulting record. -/
theorem processArticle_eq_some {md : String → String} {fs : String → Option String}
    {d : Date} {e : String × SourceMeta} {r : ArticleRecord}
    (h : processArticle md fs d e = some r) :
    ∃ c im, fs e.1 = some c ∧ image_metadata.lookup e.2.image = some im ∧
      r = { headline := headline c,
            content := md c,
            image_path := "images/" ++ e.2.image,
            image_alt := im.alt,
            image_credit := im.credit,
            category := e.2.category,
            publish_date := strftimeYmd d,
            author := "TimeOut Dubai" } := by
  unfold processArticle at h
  cases hc : fs e.1 with
  | none => rw [hc] at h; exact absurd h (by simp)
  | some c =>
    rw [hc] at h
    cases him : image_metadata.lookup e.2.image with
    | none => rw [him] at h; exact absurd h (by simp)
    | some im =>
      rw [him] at h
      exact ⟨c, im, rfl, rfl, (Option.some.injEq _ _ ▸ h).symm⟩

/-- The processing step fails exactly when the file is absent or the
image filename has no metadata entry. -/
theorem processArticle_eq_none_iff {md : String → String} {fs : String → Option String}
    {d : Date} {e : String × SourceMeta} :
    processArticle md fs d e = none ↔
      fs e.1 = none ∨ image_metadata.lookup e.2.image = none := by
  unfold processArticle
  cases hc : fs e.1 with
  | none => simp
  | some c =>
    cases him : image_metadata.lookup e.2.image with
    | none => simp [him]
    | some im => simp [him]

/-- Every per-article write the loop performs comes from a successfully
processed entry of the list, at the path derived from that entry. -/
theorem mem_runAux_files {md : String → String} {fs : String → Option String} {d : Date} :
    ∀ {l : List (String × SourceMeta)} {p : String} {r : ArticleRecord},
      FileWrite.articleFile p r ∈ (runAux md fs d l).1 →
      ∃ e, e ∈ l ∧ processArticle md fs d e = some r ∧ p = outputPath e.1 := by
  intro l
  induction l with
  | nil => intro p r h; simp [runAux] at h
  | cons e rest ih =>
    intro p r h
    simp only [runAux] at h
    cases hp : processArticle md fs d e with
    | none => rw [hp] at h; simp at h
    | some r0 =>
      rw [hp] at h
      rcases List.mem_cons.1 h with h1 | h1
      · rcases FileWrite.articleFile.injEq .. ▸ h1 with ⟨hpath, hrec⟩
        exact ⟨e, List.mem_cons_self .., by rw [hrec]; exact hp, hpath⟩
      · obtain ⟨e2, he2, hpr, hpath⟩ := ih h1
        exact ⟨e2, List.mem_cons_of_mem _ he2, hpr, hpath⟩

/-- The loop never writes the aggregate file. -/
theorem aggregate_not_mem_runAux {md : String → String} {fs : String → Option String}
    {d : Date} :
    ∀ {l : List (String × SourceMeta)} {p : String} {recs : List ArticleRecord},
      FileWrite.aggregateFile p recs ∉ (runAux md fs d l).1 := by
  intro l
  induction l with
  | nil => intro p recs h; simp [runAux] at h
  | cons e rest ih =>
    intro p recs h
    simp only [runAux] at h
    cases hp : processArticle md fs d e with
    | none => rw [hp] at h; simp at h
    | some r0 =>
      rw [hp] at h
      rcases List.mem_cons.1 h with h1 | h1
      · exact FileWrite.noConfusion h1
      · exact ih h1

/-- If some entry of the list fails to process, the loop does not
produce an articles list. -/
theorem runAux_agg_none {md : String → String} {fs : String → Option String} {d : Date} :
    ∀ {l : List (String × SourceMeta)} {e : String × SourceMeta},
      e ∈ l → processArticle md fs d e = none → (runAux md fs d l).2 = none := by
  intro l
  induction l with
  | nil => intro e h; simp at h
  | cons e2 rest ih =>
    intro e hmem hfail
    rcases List.mem_cons.1 hmem with h1 | h1
    · subst h1; simp [runAux, hfail]
    · cases hp : processArticle md fs d e2 with
      | none => simp [runAux, hp]
      | some r0 => simp [runAux, hp, ih h1 hfail]

/-- When the loop succeeds on a list of entries, the articles list has
one record per entry and the per-article writes are exactly the entries
zipped with their records, in order. -/
theorem runAux_eq_some {md : String → String} {fs : String → Option String} {d : Date} :
    ∀ {l : List (String × SourceMeta)} {files : List FileWrite} {recs : List ArticleRecord},
      runAux md fs d l = (files, some recs) →
      recs.length = l.length ∧
        files = List.zipWith (fun e r => FileWrite.articleFile (outputPath e.1) r) l recs := by
  intro l
  induction l with
  | nil =>
    intro files recs h
    simp only [runAux, Prod.mk.injEq] at h
    obtain ⟨h1, h2⟩ := h
    cases h2
    simp [h1.symm]
  | cons e rest ih =>
    intro files recs h
    simp only [runAux] at h
    cases hp : processArticle md fs d e with
    | none => rw [hp] at h; simp at h
    | some r =>
      rw [hp] at h
      simp only [Prod.mk.injEq] at h
      obtain ⟨h1, h2⟩ := h
      cases hagg : (runAux md fs d rest).2 with
      | none => rw [hagg] at h2; simp at h2
      | some recs2 =>
        rw [hagg] at h2
        rw [Option.map_some'] at h2
        rw [Option.some.injEq] at h2
        obtain ⟨hlen, hfiles⟩ :=
          ih (show runAux md fs d rest = ((runAux md fs d rest).1, some recs2) by
            rw [← hagg])
        subst h1 h2
        simp [hlen, hfiles]

/-- Every record of a successfully produced articles list comes from a
successfully processed entry of the list. -/
theorem runAux_mem_recs {md : String → String} {fs : String → Option String} {d : Date} :
    ∀ {l : List (String × SourceMeta)} {recs : List ArticleRecord},
      (runAux md fs d l).2 = some recs →
      ∀ {r : ArticleRecord}, r ∈ recs →
        ∃ e, e ∈ l ∧ processArticle md fs d e = some r := by
  intro l
  induction l with
  | nil =>
    intro recs h r hr
    simp only [runAux] at h
    cases h
    simp at hr
  | cons e rest ih =>
    intro recs h r hr
    simp only [runAux] at h
    cases hp : processArticle md fs d e with
    | none => rw [hp] at h; simp at h
    | some r0 =>
      rw [hp] at h
      cases hagg : (runAux md fs d rest).2 with
      | none => rw [hagg] at h; simp at h
      | some recs2 =>
        rw [hagg] at h
        simp only [Option.map_some', Option.some.injEq] at h
        subst h
        rcases List.mem_cons.1 hr with h1 | h1
        · exact ⟨e, List.mem_cons_self .., by rw [h1]; exact hp⟩
        · obtain ⟨e2, he2, hpr⟩ := ih hagg h1
          exact ⟨e2, List.mem_cons_of_mem _ he2, hpr⟩

/-- When every entry of a first segment processes successfully and the
next entry fails, the loop writes exactly the files of the first segment
and produces no articles list. -/
theorem runAux_append_fail {md : String → String} {fs : String → Option String} {d : Date}
    (e : String × SourceMeta) (l2 : List (String × SourceMeta)) :
    ∀ l1 : List (String × SourceMeta),
      (∀ x ∈ l1, (processArticle md fs d x).isSome) →
      processArticle md fs d e = none →
      runAux md fs d (l1 ++ e :: l2) =
        (l1.filterMap
          (fun x => (processArticle md fs d x).map (FileWrite.articleFile (outputPath x.1))),
         none) := by
  intro l1
  induction l1 with
  | nil => intro _ hfail; simp [runAux, hfail]
  | cons x l1 ih =>
    intro hall hfail
    have hx := hall x (List.mem_cons_self ..)
    cases hp : processArticle md fs d x with
    | none => rw [hp] at hx; simp at hx
    | some r =>
      have hrest := ih (fun y hy => hall y (List.mem_cons_of_mem _ hy)) hfail
      simp [runAux, hp, hrest, List.filterMap_cons]

/-- Every per-article file written by the whole run comes from a
successfully processed entry of the static article table, at the path
derived from that entry. -/
theorem mem_runConverter_article {md : String → String} {fs : String → Option String}
    {d : Date} {p : String} {r : ArticleRecord}
    (h : FileWrite.articleFile p r ∈ runConverter md fs d) :
    ∃ e, e ∈ article_files ∧ processArticle md fs d e = some r ∧ p = outputPath e.1 := by
  apply mem_runAux_files
  simp only [runConverter] at h
  cases hagg : (runAux md fs d article_files).2 with
  | none => rw [hagg] at h; exact h
  | some recs =>
    rw [hagg] at h
    rcases List.mem_append.1 h with h1 | h1
    · exact h1
    · rcases List.mem_singleton.1 h1 with h2
      exact absurd h2 (fun hh => FileWrite.noConfusion hh)

/-- Every record of an aggregate write of the whole run comes from a
successfully processed entry of the static article table. -/
theorem mem_runConverter_aggregate {md : String → String} {fs : String → Option String}
    {d : Date} {p : String} {recs : List ArticleRecord}
    (h : FileWrite.aggregateFile p recs ∈ runConverter md fs d) :
    (runAux md fs d article_files).2 = some recs ∧ p = all_articles_path := by
  simp only [runConverter] at h
  cases hagg : (runAux md fs d article_files).2 with
  | none => rw [hagg] at h; exact absurd h aggregate_not_mem_runAux
  | some recs2 =>
    rw [hagg] at h
    rcases List.mem_append.1 h with h1 | h1
    · exact absurd h1 aggregate_not_mem_runAux
    · rcases List.mem_singleton.1 h1 with h2
      rcases FileWrite.aggregateFile.injEq .. ▸ h2 with ⟨hpath, hrecs⟩
      exact ⟨by rw [hrecs], hpath⟩

/-! Date-independence machinery: erasing the publish date from records
and writes. -/

/-- Up to the publish date, the processing step does not depend on the
run date. -/
theorem processArticle_scrub (md : String → String) (fs : String → Option String)
    (d1 d2 : Date) (e : String × SourceMeta) :
    (processArticle md fs d1 e).map scrub = (processArticle md fs d2 e).map scrub := by
  unfold processArticle
  cases hc : fs e.1 with
  | none => rfl
  | some c =>
    cases him : image_metadata.lookup e.2.image with
    | none => rfl
    | some im => rfl

/-- Up to publish dates, the loop does not depend on the run date:
neither in the files it writes nor in the articles list it accumulates. -/
theorem runAux_scrub (md : String → String) (fs : String → Option String) (d1 d2 : Date) :
    ∀ l : List (String × SourceMeta),
      (runAux md fs d1 l).1.map scrubWrite = (runAux md fs d2 l).1.map scrubWrite ∧
      ((runAux md fs d1 l).2).map (List.map scrub) =
        ((runAux md fs d2 l).2).map (List.map scrub) := by
  intro l
  induction l with
  | nil => exact ⟨rfl, rfl⟩
  | cons e rest ih =>
    have hps := processArticle_scrub md fs d1 d2 e
    cases h1 : processArticle md fs d1 e with
    | none =>
      cases h2 : processArticle md fs d2 e with
      | none => simp [runAux, h1, h2]
      | some r2 => rw [h1, h2] at hps; exact absurd hps (by simp)
    | some r1 =>
      cases h2 : processArticle md fs d2 e with
      | none => rw [h1, h2] at hps; exact absurd hps (by simp)
      | some r2 =>
        rw [h1, h2] at hps
        simp only [Option.map_some', Option.some.injEq] at hps
        obtain ⟨ihf, iha⟩ := ih
        constructor
        · simp only [runAux, h1, h2, List.map_cons, scrubWrite, hps, ihf]
        · simp only [runAux, h1, h2]
          cases ha : (runAux md fs d1 rest).2 with
          | none =>
            cases hb : (runAux md fs d2 rest).2 with
            | none => rfl
            | some lb => rw [ha, hb] at iha; exact absurd iha (by simp)
          | some la =>
            cases hb : (runAux md fs d2 rest).2 with
            | none => rw [ha, hb] at iha; exact absurd iha (by simp)
            | some lb =>
              rw [ha, hb] at iha
              simp only [Option.map_some', Option.some.injEq] at iha
              simp [ha, hb, Option.map_some', hps, iha]

/-- Up to publish dates, the whole run does not depend on the run
date. -/
theorem runConverter_scrub (md : String → String) (fs : String → Option String)
    (d1 d2 : Date) :
    (runConverter md fs d1).map scrubWrite = (runConverter md fs d2).map scrubWrite := by
  obtain ⟨hf, ha⟩ := runAux_scrub md fs d1 d2 article_files
  simp only [runConverter]
  cases h1 : (runAux md fs d1 article_files).2 with
  | none =>
    cases h2 : (runAux md fs d2 article_files).2 with
    | none => exact hf
    | some recs2 => rw [h1, h2] at ha; exact absurd ha (by simp)
  | some recs1 =>
    cases h2 : (runAux md fs d2 article_files).2 with
    | none => rw [h1, h2] at ha; exact absurd ha (by simp)
    | some recs2 =>
      rw [h1, h2] at ha
      simp only [Option.map_some', Option.some.injEq] at ha
      simp [List.map_append, hf, scrubWrite, ha]

/-! Remaining helper lemmas. -/

/-- Every per-article record the run emits carries the formatted run
date as its publish date. -/
theorem publish_date_of_mem {md : String → String} {fs : String → Option String}
    {d : Date} {p : String} {r : ArticleRecord}
    (h : FileWrite.articleFile p r ∈ runConverter md fs d) :
    r.publish_date = strftimeYmd d := by
  obtain ⟨e, _, hpr, _⟩ := mem_runConverter_article h
  obtain ⟨c, im, _, _, hr⟩ := processArticle_eq_some hpr
  rw [hr]

/-- Every configured image filename has a metadata entry. -/
theorem lookup_image_isSome :
    ∀ e ∈ article_files, (image_metadata.lookup e.2.image).isSome = true := by
  decide

/-- Every configured source filename ends in the markdown extension, and
replacing it yields the same basename with the json extension. -/
theorem outputFilename_spec :
    ∀ e ∈ article_files,
      extOf e.1 = ".md" ∧ outputFilename e.1 = stem e.1 ++ ".json" := by
  decide

/-! The claims. -/

/-- Claim C1, counterexample: the claim says the headline equals the
first line with leading hash characters and surrounding whitespace
stripped. On a first line that interleaves hash characters and spaces
the code strips the whole run of hashes and spaces (str.lstrip with the
two-character set), so the emitted headline differs from the claim's
words, which leave the hash that follows a space in place. -/
theorem claim_C1_counterexample :
    fsC1 "dubai-four-day-workweek.md" = some c1Content ∧
    FileWrite.articleFile (outputPath "dubai-four-day-workweek.md") recC1 ∈
      runConverter mdW fsC1 dW ∧
    recC1.headline ≠ headlineSpecC1 c1Content ∧
    recC1.headline = "Dubai announces four-day workweek" ∧
    headlineSpecC1 c1Content = "# Dubai announces four-day workweek" := by
  decide

/-- Claim C1, amended: for every configured article whose source file
exists, the headline of the emitted record equals the first line of the
source text with its leading run of hash and space characters stripped
and the surrounding whitespace stripped; in particular the spec's
example still holds. -/
theorem claim_C1_amended (md : String → String) (fs : String → Option String) (d : Date)
    (e : String × SourceMeta) (c : String) (r : ArticleRecord)
    (hc : fs e.1 = some c) (hr : processArticle md fs d e = some r) :
    r.headline = headlineAmendedC1 c := by
  obtain ⟨c2, im, hc2, him, hrec⟩ := processArticle_eq_some hr
  rw [hc] at hc2
  cases hc2
  rw [hrec]
  exact headline_eq_headlineAmendedC1 c

/-- Claim C1, witness: on the spec's example text the emitted headline
is the example headline, with no hash and no surrounding space. -/
theorem claim_C1_witness :
    fsC1ex "dubai-four-day-workweek.md" = some c1ExContent ∧
    processArticle mdW fsC1ex dW entry0 = some recC1ex ∧
    recC1ex.headline = headlineAmendedC1 c1ExContent ∧
    recC1ex.headline = "Dubai announces four-day workweek" :=
  ⟨by decide, by decide,
   claim_C1_amended mdW fsC1ex dW entry0 c1ExContent recC1ex (by decide) (by decide),
   by decide⟩

/-- Claim C2, counterexample: the claim names the record fields
imagePath, imageAlt, imageCredit and publishDate, but the JSON objects
the script writes use the keys image_path, image_alt, image_credit and
publish_date. -/
theorem claim_C2_counterexample :
    FileWrite.articleFile (outputPath "dubai-four-day-workweek.md") recW ∈
      runConverter mdW fsW dW ∧
    (recordFields recW).map Prod.fst ≠ fieldsSpecC2 ∧
    (recordFields recW).map Prod.fst = fieldsAmendedC2 := by
  decide

/-- Claim C2, amended: every emitted record, in the per-article files
and in the aggregate, is an object with exactly the fields headline,
content, image_path, image_alt, image_credit, category, publish_date
and author, where publish_date is the formatted run date and author is
the fixed constant string. -/
theorem claim_C2_amended (md : String → String) (fs : String → Option String) (d : Date) :
    (∀ p r, FileWrite.articleFile p r ∈ runConverter md fs d →
      (recordFields r).map Prod.fst = fieldsAmendedC2 ∧
      r.publish_date = strftimeYmd d ∧ r.author = "TimeOut Dubai") ∧
    (∀ p recs, FileWrite.aggregateFile p recs ∈ runConverter md fs d →
      ∀ r ∈ recs,
        (recordFields r).map Prod.fst = fieldsAmendedC2 ∧
        r.publish_date = strftimeYmd d ∧ r.author = "TimeOut Dubai") := by
  constructor
  · intro p r h
    obtain ⟨e, _, hpr, _⟩ := mem_runConverter_article h
    obtain ⟨c, im, _, _, hrec⟩ := processArticle_eq_some hpr
    exact ⟨rfl, by rw [hrec], by rw [hrec]⟩
  · intro p recs h r hr
    obtain ⟨hagg, _⟩ := mem_runConverter_aggregate h
    obtain ⟨e, _, hpr⟩ := runAux_mem_recs hagg hr
    obtain ⟨c, im, _, _, hrec⟩ := processArticle_eq_some hpr
    exact ⟨rfl, by rw [hrec], by rw [hrec]⟩

/-- Claim C2, witness: the record of the first configured article under
a concrete run has exactly the amended fields, the run date and the
constant author. -/
theorem claim_C2_witness :
    FileWrite.articleFile (outputPath "dubai-four-day-workweek.md") recW ∈
      runConverter mdW fsW dW ∧
    ((recordFields recW).map Prod.fst = fieldsAmendedC2 ∧
      recW.publish_date = strftimeYmd dW ∧ recW.author = "TimeOut Dubai") :=
  ⟨by decide,
   (claim_C2_amended mdW fsW dW).1 (outputPath "dubai-four-day-workweek.md") recW
     (by decide)⟩

/-- Claim C5: for every entry of the static article table the image
filename has a metadata entry, so for the configured data the lookup
never fails and processing can only fail on a missing file. -/
theorem claim_C5 (md : String → String) (fs : String → Option String) (d : Date)
    (e : String × SourceMeta) (he : e ∈ article_files) :
    (image_metadata.lookup e.2.image).isSome = true ∧
      ((fs e.1).isSome = true → (processArticle md fs d e).isSome = true) := by
  refine ⟨lookup_image_isSome e he, fun hfs => ?_⟩
  cases hc : fs e.1 with
  | none => rw [hc] at hfs; exact absurd hfs (by simp)
  | some c =>
    cases him : image_metadata.lookup e.2.image with
    | none => exact absurd (lookup_image_isSome e he) (by rw [him]; simp)
    | some im => simp [processArticle, hc, him]

/-- Claim C5, witness: the first configured entry has image metadata and
processes successfully when its file exists. -/
theorem claim_C5_witness :
    entry0 ∈ article_files ∧
    (image_metadata.lookup entry0.2.image).isSome = true ∧
    (processArticle mdW fsW dW entry0).isSome = true :=
  ⟨by decide, (claim_C5 mdW fsW dW entry0 (by decide)).1,
   (claim_C5 mdW fsW dW entry0 (by decide)).2 (by decide)⟩

/-- Claim C3: when every configured entry processes successfully, the
aggregate write holds an articles list with one record per configured
article, the per-article writes are exactly the configured entries
zipped with those records in table order, and the run ends by writing
the aggregate file after all the per-article files. -/
theorem claim_C3 (md : String → String) (fs : String → Option String) (d : Date)
    (files : List FileWrite) (recs : List ArticleRecord)
    (h : runAux md fs d article_files = (files, some recs)) :
    recs.length = article_files.length ∧
    files = List.zipWith (fun e r => FileWrite.articleFile (outputPath e.1) r)
      article_files recs ∧
    runConverter md fs d = files ++ [FileWrite.aggregateFile all_articles_path recs] := by
  obtain ⟨hlen, hfiles⟩ := runAux_eq_some h
  refine ⟨hlen, hfiles, ?_⟩
  simp [runConverter, h]

/-- Claim C3, witness: on a file system where every configured file
exists, the run writes fifteen per-article files and the aggregate. -/
theorem claim_C3_witness :
    runAux mdW fsAll dW article_files = (filesW, some recsW) ∧
    (recsW.length = article_files.length ∧
      filesW = List.zipWith (fun e r => FileWrite.articleFile (outputPath e.1) r)
        article_files recsW ∧
      runConverter mdW fsAll dW =
        filesW ++ [FileWrite.aggregateFile all_articles_path recsW]) :=
  ⟨by decide, claim_C3 mdW fsAll dW filesW recsW (by decide)⟩

/-- Claim C4: the run is a deterministic function of the file contents
and the run date; two runs on the same file system differ only in the
publish dates of the emitted records, and each emitted record carries
the formatted date of its own run. -/
theorem claim_C4 (md : String → String) (fs : String → Option String) (d1 d2 : Date) :
    (runConverter md fs d1).map scrubWrite = (runConverter md fs d2).map scrubWrite ∧
    (∀ p r, FileWrite.articleFile p r ∈ runConverter md fs d1 →
      r.publish_date = strftimeYmd d1) ∧
    (∀ p r, FileWrite.articleFile p r ∈ runConverter md fs d2 →
      r.publish_date = strftimeYmd d2) :=
  ⟨runConverter_scrub md fs d1 d2,
   fun _ _ h => publish_date_of_mem h,
   fun _ _ h => publish_date_of_mem h⟩

/-- Claim C4, witness: two concrete runs a day apart agree once publish
dates are erased, and each record carries its own run date. -/
theorem claim_C4_witness :
    (runConverter mdW fsW dW).map scrubWrite = (runConverter mdW fsW dW2).map scrubWrite ∧
    recW.publish_date = strftimeYmd dW :=
  ⟨(claim_C4 mdW fsW dW dW2).1,
   (claim_C4 mdW fsW dW dW2).2.1 (outputPath "dubai-four-day-workweek.md") recW
     (by decide)⟩

/-- Claim C6: when some configured entry fails, because its file is
absent or its image has no metadata entry, the run produces no articles
list, never writes the aggregate file, and performs only the writes of
the loop up to the failure. -/
theorem claim_C6 (md : String → String) (fs : String → Option String) (d : Date)
    (h : ∃ e, e ∈ article_files ∧
      (fs e.1 = none ∨ image_metadata.lookup e.2.image = none)) :
    (runAux md fs d article_files).2 = none ∧
    (∀ p recs, FileWrite.aggregateFile p recs ∉ runConverter md fs d) ∧
    runConverter md fs d = (runAux md fs d article_files).1 := by
  obtain ⟨e, he, hfail⟩ := h
  have hnone : processArticle md fs d e = none := processArticle_eq_none_iff.2 hfail
  have hagg : (runAux md fs d article_files).2 = none := runAux_agg_none he hnone
  have hrun : runConverter md fs d = (runAux md fs d article_files).1 := by
    simp [runConverter, hagg]
  refine ⟨hagg, ?_, hrun⟩
  intro p recs hmem
  rw [hrun] at hmem
  exact aggregate_not_mem_runAux hmem

/-- Claim C6, witness: on an empty file system the run produces no
articles list and never writes the aggregate file. -/
theorem claim_C6_witness :
    (runAux mdW fsNone dW article_files).2 = none ∧
    (∀ p recs, FileWrite.aggregateFile p recs ∉ runConverter mdW fsNone dW) :=
  ⟨(claim_C6 mdW fsNone dW ⟨entry0, by decide, Or.inl rfl⟩).1,
   (claim_C6 mdW fsNone dW ⟨entry0, by decide, Or.inl rfl⟩).2.1⟩

/-- Claim C7: the content field of every emitted record is the
markdown-to-HTML conversion of the full source text of its configured
article, for whatever conversion function the markdown library
provides. -/
theorem claim_C7 (md : String → String) (fs : String → Option String) (d : Date)
    (p : String) (r : ArticleRecord)
    (h : FileWrite.articleFile p r ∈ runConverter md fs d) :
    ∃ e c, e ∈ article_files ∧ fs e.1 = some c ∧ r.content = md c := by
  obtain ⟨e, he, hpr, _⟩ := mem_runConverter_article h
  obtain ⟨c, im, hc, _, hrec⟩ := processArticle_eq_some hpr
  exact ⟨e, c, he, hc, by rw [hrec]⟩

/-- Claim C7, witness: with the modelled markdown transformation, a
source that is a single level-two heading yields a record whose content
is the corresponding level-two heading element. -/
theorem claim_C7_witness :
    FileWrite.articleFile (outputPath "dubai-four-day-workweek.md") recH ∈
      runConverter mdModel fsH dW ∧
    (∃ e c, e ∈ article_files ∧ fsH e.1 = some c ∧ recH.content = mdModel c) ∧
    recH.content = "<h2>Heading</h2>" :=
  ⟨by decide,
   claim_C7 mdModel fsH dW (outputPath "dubai-four-day-workweek.md") recH (by decide),
   by decide⟩

/-- Claim C8: the image_alt and image_credit fields of every emitted
record exactly equal the alt and credit strings configured in the static
image-metadata table for the article's image filename. -/
theorem claim_C8 (md : String → String) (fs : String → Option String) (d : Date)
    (p : String) (r : ArticleRecord)
    (h : FileWrite.articleFile p r ∈ runConverter md fs d) :
    ∃ e im, e ∈ article_files ∧ image_metadata.lookup e.2.image = some im ∧
      r.image_alt = im.alt ∧ r.image_credit = im.credit := by
  obtain ⟨e, he, hpr, _⟩ := mem_runConverter_article h
  obtain ⟨c, im, _, him, hrec⟩ := processArticle_eq_some hpr
  exact ⟨e, im, he, him, by rw [hrec], by rw [hrec]⟩

/-- Claim C8, witness: the record of the first configured article
carries exactly the statically configured alt text and credit. -/
theorem claim_C8_witness :
    FileWrite.articleFile (outputPath "dubai-four-day-workweek.md") recW ∈
      runConverter mdW fsW dW ∧
    (∃ e im, e ∈ article_files ∧ image_metadata.lookup e.2.image = some im ∧
      recW.image_alt = im.alt ∧ recW.image_credit = im.credit) ∧
    recW.image_alt =
      "Dubai public sector employees in a meeting discussing the four-day work week initiative" ∧
    recW.image_credit = "Gulf Business (gulfbusiness.com)" :=
  ⟨by decide,
   claim_C8 mdW fsW dW (outputPath "dubai-four-day-workweek.md") recW (by decide),
   by decide, by decide⟩

/-- Claim C9: every per-article file is written into the output
directory under the name of its source file with the three-character
markdown extension swapped for the json extension, keeping the
basename. -/
theorem claim_C9 (md : String → String) (fs : String → Option String) (d : Date)
    (p : String) (r : ArticleRecord)
    (h : FileWrite.articleFile p r ∈ runConverter md fs d) :
    ∃ e, e ∈ article_files ∧ extOf e.1 = ".md" ∧
      outputFilename e.1 = stem e.1 ++ ".json" ∧
      p = output_dir ++ "/" ++ outputFilename e.1 := by
  obtain ⟨e, he, _, hpath⟩ := mem_runConverter_article h
  obtain ⟨hext, hswap⟩ := outputFilename_spec e he
  exact ⟨e, he, hext, hswap, hpath⟩

/-- Claim C9, witness: the first configured article is written to the
output directory as the json file with the same basename. -/
theorem claim_C9_witness :
    FileWrite.articleFile (outputPath "dubai-four-day-workweek.md") recW ∈
      runConverter mdW fsW dW ∧
    (∃ e, e ∈ article_files ∧ extOf e.1 = ".md" ∧
      outputFilename e.1 = stem e.1 ++ ".json" ∧
      outputPath "dubai-four-day-workweek.md" = output_dir ++ "/" ++ outputFilename e.1) ∧
    outputPath "dubai-four-day-workweek.md" =
      "/home/ubuntu/timeoutdubai_rewrite_named/output/dubai-four-day-workweek.json" :=
  ⟨by decide,
   claim_C9 mdW fsW dW (outputPath "dubai-four-day-workweek.md") recW (by decide),
   by decide⟩

/-- Claim C10: the run is not atomic. When the configured table splits
as a prefix whose entries all process successfully followed by a failing
entry, the run performs exactly the per-article writes of the prefix, in
order; the aggregate file and the failing entry's file are never
written. -/
theorem claim_C10 (md : String → String) (fs : String → Option String) (d : Date)
    (l1 : List (String × SourceMeta)) (e : String × SourceMeta)
    (l2 : List (String × SourceMeta))
    (hsplit : article_files = l1 ++ e :: l2)
    (hok : ∀ x ∈ l1, (processArticle md fs d x).isSome)
    (hfail : processArticle md fs d e = none) :
    runConverter md fs d =
      l1.filterMap
        (fun x => (processArticle md fs d x).map (FileWrite.articleFile (outputPath x.1))) ∧
    (∀ p recs, FileWrite.aggregateFile p recs ∉ runConverter md fs d) ∧
    (∀ r, FileWrite.articleFile (outputPath e.1) r ∉ runConverter md fs d) := by
  have hrunAux := runAux_append_fail e l2 l1 hok hfail
  have hrun : runConverter md fs d =
      l1.filterMap
        (fun x => (processArticle md fs d x).map (FileWrite.articleFile (outputPath x.1))) := by
    rw [runConverter, hsplit, hrunAux]
  refine ⟨hrun, ?_, ?_⟩
  · intro p recs hmem
    rw [hrun] at hmem
    obtain ⟨x, _, hx⟩ := List.mem_filterMap.1 hmem
    obtain ⟨r0, _, habs⟩ := Option.map_eq_some'.1 hx
    exact FileWrite.noConfusion habs
  · intro r hmem
    rw [hrun] at hmem
    obtain ⟨x, hxl1, hx⟩ := List.mem_filterMap.1 hmem
    obtain ⟨r0, _, habs⟩ := Option.map_eq_some'.1 hx
    have hpaths : outputPath x.1 = outputPath e.1 :=
      (FileWrite.articleFile.injEq .. ▸ habs).1
    have hnodup : (article_files.map (fun y => outputPath y.1)).Nodup := by decide
    rw [hsplit, List.map_append] at hnodup
    have hdisj := (List.nodup_append.1 hnodup).2.2
    exact hdisj (List.mem_map_of_mem _ hxl1)
      (by rw [hpaths, List.map_cons]; exact List.mem_cons_self ..)

/-- Claim C10, witness: when only the first configured file exists, the
run writes exactly the first article's file; the aggregate file and the
second article's file are not written. -/
theorem claim_C10_witness :
    runConverter mdW fsW dW =
      [entry0].filterMap
        (fun x => (processArticle mdW fsW dW x).map (FileWrite.articleFile (outputPath x.1))) ∧
    (∀ r, FileWrite.articleFile (outputPath entry1.1) r ∉ runConverter mdW fsW dW) :=
  ⟨(claim_C10 mdW fsW dW [entry0] entry1 (article_files.drop 2) (by decide) (by decide)
      (by decide)).1,
   (claim_C10 mdW fsW dW [entry0] entry1 (article_files.drop 2) (by decide) (by decide)
      (by decide)).2.2⟩

end ConvertMdToHtml
